import Mathlib

/-!
Shallow embedding of `src/llrf2025_scraper.py` (class `LLRF2025Scraper`)
and proofs about the claims of its specification.

Strings are modelled by Lean `String` (a packed `List Char`); the character
classes of the Python regexes are modelled over their ASCII members.
Dictionaries produced by the normalizer always carry every key, so they are
modelled as records; raw API dictionaries, in which any key may be absent,
are modelled as records of `Option` fields.
-/

namespace LLRF2025

/-! ### `safe_filename` (lines 100–123)

```
if not filename: return "unknown"
filename = re.sub(r'[<>:"/\\|?*\r\n]', '_', filename)
filename = re.sub(r'\s+', ' ', filename)
filename = filename.strip(' ._')
if len(filename) > max_length:
    filename = filename[:max_length].rsplit(' ', 1)[0]
return filename or "unknown"
```
-/

/-- The character class of the first `re.sub`: `[<>:"/\\|?*\r\n]`. -/
def forbidden (c : Char) : Bool :=
  c = '<' || c = '>' || c = ':' || c = '"' || c = '/' || c = '\\' ||
  c = '|' || c = '?' || c = '*' || c = '\r' || c = '\n'

/-- `re.sub(r'[<>:"/\\|?*\r\n]', '_', s)`: every forbidden character becomes
an underscore. -/
def replaceForbidden (s : List Char) : List Char :=
  s.map (fun c => if forbidden c then '_' else c)

/-- Python's `\s` class (ASCII members: space, tab, LF, CR, VT, FF). -/
def pySpace (c : Char) : Bool :=
  c = ' ' || c = '\t' || c = '\n' || c = '\r' || c = '\x0b' || c = '\x0c'

/-- `re.sub(r'\s+', ' ', s)`: every maximal run of whitespace collapses to a
single space character. -/
def collapse : List Char → List Char
  | [] => []
  | [c] => if pySpace c then [' '] else [c]
  | c :: d :: cs =>
    if pySpace c then
      if pySpace d then collapse (d :: cs) else ' ' :: collapse (d :: cs)
    else c :: collapse (d :: cs)

/-- The strip set of `filename.strip(' ._')`. -/
def stripSet (c : Char) : Bool :=
  c = ' ' || c = '.' || c = '_'

/-- Removal of trailing characters of the strip set (the right half of
`str.strip`). -/
def rstrip : List Char → List Char
  | [] => []
  | c :: cs =>
    match rstrip cs with
    | [] => if stripSet c then [] else [c]
    | r => c :: r

/-- `filename.strip(' ._')`: drop leading and trailing characters of the
strip set. -/
def stripEdges (s : List Char) : List Char :=
  rstrip (s.dropWhile stripSet)

/-- The part of `p` standing before its last space character, when `p`
contains a space. -/
def beforeLastSpace : List Char → Option (List Char)
  | [] => none
  | c :: cs =>
    match beforeLastSpace cs with
    | some r => some (c :: r)
    | none => if c = ' ' then some [] else none

/-- `p.rsplit(' ', 1)[0]`: everything before the last space, or `p` itself
when `p` holds no space. -/
def cutLastSpace (p : List Char) : List Char :=
  (beforeLastSpace p).getD p

/-- The truncation step:
`if len(filename) > max_length: filename = filename[:max_length].rsplit(' ', 1)[0]`. -/
def truncateTo (maxLength : Nat) (f : List Char) : List Char :=
  if maxLength < f.length then cutLastSpace (f.take maxLength) else f

/-- Core of `safe_filename` on character lists, with the `max_length`
parameter explicit. -/
def safe_filename_core (maxLength : Nat) (s : List Char) : List Char :=
  if s.isEmpty then "unknown".data
  else
    let f := truncateTo maxLength (stripEdges (collapse (replaceForbidden s)))
    if f.isEmpty then "unknown".data else f

/-- `LLRF2025Scraper.safe_filename` at its default `max_length = 180`; every
call site of the scraper uses this default. -/
def safe_filename (s : String) : String :=
  String.mk (safe_filename_core 180 s.data)

/-! ### Raw API records (input of `parse_contribution`, lines 157–248)

Raw records are dictionaries in which every key may be absent, so every
field is an `Option`.  Identifier and numeric-looking fields that the code
only moves around are modelled as strings; `duration` and `size` (defaulted
to `0`) as integers; `is_protected` (defaulted to `False`) as a Bool.  The
`session`/`track` values may be non-strings upstream; the model carries the
string the code's `str(...)` coercion would produce. -/

/-- The `startDate` / `endDate` objects with `date` and `time` sub-fields. -/
structure RawDateObj where
  date : Option String
  time : Option String
deriving DecidableEq

/-- A raw person record (speakers, primary authors, co-authors). -/
structure RawPerson where
  fullName : Option String
  first_name : Option String
  last_name : Option String
  affiliation : Option String
  id : Option String
deriving DecidableEq

/-- A raw attachment record inside a folder. -/
structure RawAttachment where
  id : Option String
  title : Option String
  filename : Option String
  download_url : Option String
  content_type : Option String
  size : Option Int
  modified_dt : Option String
  is_protected : Option Bool
deriving DecidableEq

/-- A raw folder: attachments are nested two levels deep
(`contrib['folders'][i]['attachments'][j]`). -/
structure RawFolder where
  attachments : Option (List RawAttachment)
deriving DecidableEq

/-- A raw contribution record from the API. -/
structure RawContrib where
  id : Option String
  db_id : Option String
  friendly_id : Option String
  title : Option String
  type : Option String
  description : Option String
  startDate : Option RawDateObj
  endDate : Option RawDateObj
  duration : Option Int
  location : Option String
  room : Option String
  url : Option String
  session : Option String
  track : Option String
  board_number : Option String
  code : Option String
  speakers : Option (List RawPerson)
  primaryauthors : Option (List RawPerson)
  coauthors : Option (List RawPerson)
  folders : Option (List RawFolder)
  keywords : Option (List String)
deriving DecidableEq

/-- The raw contribution in which every field is absent. -/
def emptyRawContrib : RawContrib :=
  ⟨none, none, none, none, none, none, none, none, none, none, none,
   none, none, none, none, none, none, none, none, none, none⟩

/-! ### Normalized records (output of `parse_contribution`)

The parsed dictionaries always carry every key, so they are plain records. -/

/-- A normalized person (`name`, `first_name`, `last_name`, `affiliation`,
`id`, every one defaulted to the empty string). -/
structure Person where
  name : String
  first_name : String
  last_name : String
  affiliation : String
  id : String
deriving DecidableEq

/-- A normalized attachment. -/
structure Attachment where
  id : String
  title : String
  filename : String
  download_url : String
  content_type : String
  size : Int
  modified_dt : String
  is_protected : Bool
deriving DecidableEq

/-- A normalized contribution, the central entity of the pipeline. -/
structure Contribution where
  id : String
  db_id : String
  friendly_id : String
  title : String
  type : String
  description : String
  start_date : String
  start_time : String
  end_date : String
  end_time : String
  duration : Int
  location : String
  room : String
  url : String
  session : String
  track : String
  board_number : String
  code : String
  speakers : List Person
  primary_authors : List Person
  coauthors : List Person
  attachments : List Attachment
  attachment_count : Nat
  keywords : List String
deriving DecidableEq

/-- Person extraction (lines 193–226): the same five-field shape for
speakers, primary authors and co-authors; absent fields default to `''`. -/
def parse_person (p : RawPerson) : Person :=
  { name := p.fullName.getD ""
    first_name := p.first_name.getD ""
    last_name := p.last_name.getD ""
    affiliation := p.affiliation.getD ""
    id := p.id.getD "" }

/-- Attachment extraction (lines 229–241): absent fields default to `''`,
`size` to `0`, `is_protected` to `False`. -/
def parse_attachment (a : RawAttachment) : Attachment :=
  { id := a.id.getD ""
    title := a.title.getD ""
    filename := a.filename.getD ""
    download_url := a.download_url.getD ""
    content_type := a.content_type.getD ""
    size := a.size.getD 0
    modified_dt := a.modified_dt.getD ""
    is_protected := a.is_protected.getD false }

/-- The `str(x) if x else ''` coercion applied to `session` and `track`:
an absent or falsy value becomes `''`.  (In the string model the only falsy
string is `''`, whose `str` image is `''` as well.) -/
def strOrEmpty (v : Option String) : String :=
  match v with
  | none => ""
  | some s => if s = "" then "" else s

/-- `LLRF2025Scraper.parse_contribution` (lines 157–248): the total
normalizer from one raw record to one canonical `Contribution`.
`start_date_obj = contrib.get('startDate') or {}` is modelled by defaulting
the absent parent object, after which `date`/`time` are extracted
independently; folders' attachments are flattened in traversal order;
`attachment_count` is the length of the flattened list. -/
def parse_contribution (c : RawContrib) : Contribution :=
  let start_date_obj := c.startDate.getD ⟨none, none⟩
  let end_date_obj := c.endDate.getD ⟨none, none⟩
  let attachments :=
    (c.folders.getD []).flatMap
      (fun folder => (folder.attachments.getD []).map parse_attachment)
  { id := c.id.getD ""
    db_id := c.db_id.getD ""
    friendly_id := c.friendly_id.getD ""
    title := c.title.getD ""
    type := c.type.getD ""
    description := c.description.getD ""
    start_date := start_date_obj.date.getD ""
    start_time := start_date_obj.time.getD ""
    end_date := end_date_obj.date.getD ""
    end_time := end_date_obj.time.getD ""
    duration := c.duration.getD 0
    location := c.location.getD ""
    room := c.room.getD ""
    url := c.url.getD ""
    session := strOrEmpty c.session
    track := strOrEmpty c.track
    board_number := c.board_number.getD ""
    code := c.code.getD ""
    speakers := (c.speakers.getD []).map parse_person
    primary_authors := (c.primaryauthors.getD []).map parse_person
    coauthors := (c.coauthors.getD []).map parse_person
    attachments := attachments
    attachment_count := attachments.length
    keywords := c.keywords.getD [] }

/-! ### Classifier (`process_contributions`, lines 302–345) -/

/-- The three mutually exclusive categories. -/
inductive Category where
  | oral
  | poster
  | other
deriving DecidableEq

/-- Python's substring test `sub in hay` on character lists. -/
def containsSub : List Char → List Char → Bool
  | hay, sub =>
    match hay with
    | [] => sub.isEmpty
    | _ :: rest => sub.isPrefixOf hay || containsSub rest sub

/-- Classification of one `type` string (lines 315–323):
`contrib_type = (parsed.get('type') or '').lower()`, then substring tests
`'oral'`/`'talk'` → oral, else `'poster'` → poster, else other. -/
def classify_type (t : String) : Category :=
  let lowered := t.data.map Char.toLower
  if containsSub lowered "oral".data || containsSub lowered "talk".data then
    Category.oral
  else if containsSub lowered "poster".data then Category.poster
  else Category.other

/-- The grouping loop of `process_contributions` (lines 307–325) over the
already-normalized contributions: each contribution is appended, in fetch
order, to exactly one of the `oral` / `poster` / `other` lists. -/
def classify_all : List Contribution →
    List Contribution × List Contribution × List Contribution
  | [] => ([], [], [])
  | c :: rest =>
    let r := classify_all rest
    match classify_type c.type with
    | Category.oral => (c :: r.1, r.2.1, r.2.2)
    | Category.poster => (r.1, c :: r.2.1, r.2.2)
    | Category.other => (r.1, r.2.1, c :: r.2.2)

/-- `process_contributions` parses every raw record and classifies it in
one pass; the result is the three category lists. -/
def process_contributions (raws : List RawContrib) :
    List Contribution × List Contribution × List Contribution :=
  classify_all (raws.map parse_contribution)

/-! ### Identifier fallbacks (lines 266, 352, 497)

All three sites read `contrib.get('friendly_id', contrib.get('id', ...))`
on a dictionary produced by `parse_contribution`, which always stores the
`'friendly_id'` key (defaulting it to `''`).  `dict.get` returns the stored
value whenever the key is present, so each site reduces to the stored
`friendly_id` field and the fallbacks to `id` (`'unknown'` / `'N/A'`) are
unreachable. -/

/-- Line 266: `contrib_info.get('friendly_id', contrib_info.get('id', 'unknown'))`
inside `download_attachment`, used for the target-folder name. -/
def attachment_folder_contrib_id (c : Contribution) : String :=
  c.friendly_id

/-- Line 352: the same expression inside `_process_contribution_list`,
used for the per-contribution progress label. -/
def progress_label_contrib_id (c : Contribution) : String :=
  c.friendly_id

/-- Line 497: `contrib.get('friendly_id', contrib.get('id', 'N/A'))`
inside `_write_contribution_summary`, used for the report identifier
line. -/
def summary_contrib_id (c : Contribution) : String :=
  c.friendly_id

/-! ### Attachment materializer (`download_attachment`, lines 250–300) -/

/-- Line 274: `attachment.get('filename', attachment.get('title', 'attachment'))`
on a parsed attachment, which always stores `'filename'` (defaulted to
`''`), so the expression reduces to the stored filename and the fallbacks
are unreachable; line 275 then sanitizes it. -/
def attachment_target_filename (a : Attachment) : String :=
  safe_filename a.filename

/-- The resolved target path
`<output_dir>/<category_folder>/<contrib_id> - <safe_title>/<safe_name>`
of lines 266–277, as a list of path components. -/
def resolved_target_path (outputDir categoryFolder : String)
    (c : Contribution) (a : Attachment) : List String :=
  [outputDir, categoryFolder,
   attachment_folder_contrib_id c ++ " - " ++ safe_filename c.title,
   attachment_target_filename a]

/-- The file store: an association of paths to file contents. -/
def FileStore := List (List String × String)

/-- `filepath.exists()` / reading a file of the store. -/
def FileStore.lookup (fs : FileStore) (p : List String) : Option String :=
  match fs with
  | [] => none
  | (q, content) :: rest =>
    if q = p then some content else FileStore.lookup rest p

/-- The outcome of one `download_attachment` call: the file store after the
call, the download URLs requested during the call, and the returned
boolean. -/
structure DownloadOutcome where
  fs : FileStore
  requested : List String
  ok : Bool

/-- `LLRF2025Scraper.download_attachment` (lines 250–300).  The network is
an oracle from download URLs to `some` body (HTTP success) or `none`
(transport or HTTP-status failure, line 297's `except`).  Directory
creation (line 271) touches no file of the store.  If the target file
already exists the call returns `True` at line 281 with no request and no
write; otherwise the body is requested and either written or the failure
is swallowed with `False`. -/
def download_attachment (fs : FileStore) (remote : String → Option String)
    (outputDir categoryFolder : String) (c : Contribution)
    (a : Attachment) : DownloadOutcome :=
  let filepath := resolved_target_path outputDir categoryFolder c a
  if (fs.lookup filepath).isSome then
    { fs := fs, requested := [], ok := true }
  else
    match remote a.download_url with
    | some body =>
      { fs := (filepath, body) :: fs, requested := [a.download_url], ok := true }
    | none =>
      { fs := fs, requested := [a.download_url], ok := false }

/-! ### Source fetcher (`fetch_event_data`, lines 125–155) -/

/-- A raw event object (`results[0]`): the fields the fetcher reads. -/
structure RawEvent where
  title : Option String
  contributions : Option (List RawContrib)
deriving DecidableEq

/-- The JSON envelope of the API response: `count` and `results`, either of
which may be absent. -/
structure Envelope where
  count : Option Int
  results : Option (List RawEvent)
deriving DecidableEq

/-- What one GET of the API URL can come back as: a transport/HTTP/JSON
failure (raised inside the `try`, line 152), or a parsed envelope. -/
inductive FetchOutcome where
  | transportFail
  | ok (env : Envelope)

/-- The observable result of `fetch_event_data`: the returned boolean, the
error counter after the call, the messages logged, and the stored event
data and contribution list. -/
structure FetchResult where
  success : Bool
  errors : Nat
  logged : List String
  event_data : Option RawEvent
  contributions : List RawContrib

/-- `LLRF2025Scraper.fetch_event_data` (lines 125–155) on one fetch
outcome, with `errors0` the error counter before the call.  The function
consumes a single outcome: the source has no retry loop.  On the success
condition `data.get('count', 0) > 0 and 'results' in data` the code reads
`data['results'][0]`; an empty `results` list there raises `IndexError`,
which the `except` arm catches (log + counter increment + `False`).  The
`else` arm (line 148–150) logs and returns `False` without touching the
error counter. -/
def fetch_event_data (o : FetchOutcome) (errors0 : Nat) : FetchResult :=
  match o with
  | FetchOutcome.transportFail =>
    { success := false, errors := errors0 + 1,
      logged := ["Failed to fetch event data"],
      event_data := none, contributions := [] }
  | FetchOutcome.ok env =>
    if 0 < env.count.getD 0 ∧ env.results.isSome then
      match env.results.getD [] with
      | [] =>
        { success := false, errors := errors0 + 1,
          logged := ["Failed to fetch event data"],
          event_data := none, contributions := [] }
      | e :: _ =>
        { success := true, errors := errors0,
          logged := ["Successfully fetched event data"],
          event_data := some e, contributions := e.contributions.getD [] }
    else
      { success := false, errors := errors0,
        logged := ["No event data found in API response"],
        event_data := none, contributions := [] }

/-! ### Date grouping (`save_by_date`, lines 526–563) -/

/-- One appending step of the grouping loop: insert `c` at the end of the
bucket keyed `d`, creating the bucket at the end of the (insertion-ordered)
dictionary when absent. -/
def addToBucket (m : List (String × List Contribution)) (d : String)
    (c : Contribution) : List (String × List Contribution) :=
  match m with
  | [] => [(d, [c])]
  | (k, v) :: rest =>
    if k = d then (k, v ++ [c]) :: rest else (k, v) :: addToBucket rest d c

/-- The `by_date` dictionary of `save_by_date` (lines 531–536).  The key is
`contrib.get('start_date', 'Unknown')` on a parsed contribution, which
always stores `'start_date'` (defaulted to `''`), so the key reduces to the
stored field and the `'Unknown'` default is unreachable. -/
def save_by_date_groups (l : List Contribution) :
    List (String × List Contribution) :=
  l.foldl (fun m c => addToBucket m c.start_date c) []

/-! ### JSON exporter (`save_all_contributions_data`, lines 362–390) -/

/-- The `statistics` block of `LLRF2025_All_Contributions.json`. -/
structure ExportStatistics where
  total_contributions : Nat
  oral_presentations : Nat
  posters : Nat
  others : Nat
deriving DecidableEq

/-- The `contributions` block: the three category sub-lists. -/
structure ExportContributions where
  oral_presentations : List Contribution
  posters : List Contribution
  others : List Contribution
deriving DecidableEq

/-- The exported all-contributions document (the `event_info` block and the
wall-clock `scrape_time` are outside the claims and omitted). -/
structure AllContributionsDoc where
  statistics : ExportStatistics
  contributions : ExportContributions
deriving DecidableEq

/-- `LLRF2025Scraper.save_all_contributions_data` (lines 362–390):
`all_contributions = oral + posters + others`, the statistics are the four
lengths, and the category sub-lists are written as passed. -/
def save_all_contributions_data (oral posters others : List Contribution) :
    AllContributionsDoc :=
  let all_contributions := oral ++ posters ++ others
  { statistics :=
      { total_contributions := all_contributions.length
        oral_presentations := oral.length
        posters := posters.length
        others := others.length }
    contributions :=
      { oral_presentations := oral
        posters := posters
        others := others } }

/-! ### Lemmas about the sanitization pipeline -/

theorem forbidden_underscore : forbidden '_' = false := by decide

theorem forbidden_space : forbidden ' ' = false := by decide

theorem forbidden_replaceForbidden (s : List Char) :
    ∀ c ∈ replaceForbidden s, forbidden c = false := by
  intro c hc
  simp only [replaceForbidden, List.mem_map] at hc
  obtain ⟨d, _, hd⟩ := hc
  cases h : forbidden d with
  | true => simp [h] at hd; rw [← hd]; exact forbidden_underscore
  | false => simp [h] at hd; rw [← hd]; exact h

theorem mem_collapse : ∀ (l : List Char) (c : Char),
    c ∈ collapse l → c = ' ' ∨ c ∈ l := by
  intro l
  induction l with
  | nil => intro c hc; simp [collapse] at hc
  | cons a l ih =>
    intro c hc
    cases l with
    | nil =>
      simp only [collapse] at hc
      cases h : pySpace a <;> simp [h] at hc
      · exact Or.inr (by simp [hc])
      · exact Or.inl hc
    | cons b l2 =>
      simp only [collapse] at hc
      cases ha : pySpace a <;> simp [ha] at hc
      · rcases hc with h | h
        · exact Or.inr (by simp [h])
        · rcases ih c h with h2 | h2
          · exact Or.inl h2
          · exact Or.inr (List.mem_cons_of_mem _ h2)
      · cases hb : pySpace b <;> simp [hb] at hc
        · rcases hc with h | h
          · exact Or.inl h
          · rcases ih c h with h2 | h2
            · exact Or.inl h2
            · exact Or.inr (List.mem_cons_of_mem _ h2)
        · rcases ih c hc with h2 | h2
          · exact Or.inl h2
          · exact Or.inr (List.mem_cons_of_mem _ h2)

theorem mem_rstrip : ∀ (l : List Char) (c : Char), c ∈ rstrip l → c ∈ l := by
  intro l
  induction l with
  | nil => intro c hc; simp [rstrip] at hc
  | cons a l ih =>
    intro c hc
    simp only [rstrip] at hc
    cases hr : rstrip l with
    | nil =>
      rw [hr] at hc
      cases h : stripSet a <;> simp [h] at hc
      exact (by simp [hc])
    | cons r rs =>
      rw [hr] at hc
      rcases List.mem_cons.mp hc with h | h
      · exact (by simp [h])
      · exact List.mem_cons_of_mem _ (ih c (hr ▸ h))

theorem mem_dropWhile (p : Char → Bool) :
    ∀ (l : List Char) (c : Char), c ∈ l.dropWhile p → c ∈ l := by
  intro l
  induction l with
  | nil => intro c hc; simp at hc
  | cons a l ih =>
    intro c hc
    rw [List.dropWhile_cons] at hc
    by_cases h : p a = true
    · simp [h] at hc; exact List.mem_cons_of_mem _ (ih c hc)
    · simp [h] at hc; exact List.mem_cons.mpr hc

theorem mem_stripEdges (l : List Char) (c : Char) :
    c ∈ stripEdges l → c ∈ l := by
  intro hc
  exact mem_dropWhile stripSet l c (mem_rstrip _ c hc)

theorem mem_beforeLastSpace : ∀ (p : List Char) (r : List Char),
    beforeLastSpace p = some r → ∀ c ∈ r, c ∈ p := by
  intro p
  induction p with
  | nil => intro r hr; simp [beforeLastSpace] at hr
  | cons a p ih =>
    intro r hr c hc
    simp only [beforeLastSpace] at hr
    cases hb : beforeLastSpace p with
    | some r2 =>
      rw [hb] at hr
      simp at hr
      rw [← hr] at hc
      rcases List.mem_cons.mp hc with h | h
      · simp [h]
      · exact List.mem_cons_of_mem _ (ih r2 hb c h)
    | none =>
      rw [hb] at hr
      by_cases h : a = ' ' <;> simp [h] at hr
      rw [hr] at hc
      simp at hc

theorem mem_cutLastSpace (p : List Char) (c : Char) :
    c ∈ cutLastSpace p → c ∈ p := by
  intro hc
  unfold cutLastSpace at hc
  cases hb : beforeLastSpace p with
  | some r => rw [hb] at hc; exact mem_beforeLastSpace p r hb c hc
  | none => rw [hb] at hc; exact hc

theorem length_collapse_le : ∀ (l : List Char),
    (collapse l).length ≤ l.length := by
  intro l
  induction l with
  | nil => simp [collapse]
  | cons a l ih =>
    cases l with
    | nil => cases h : pySpace a <;> simp [collapse, h]
    | cons b l2 =>
      simp only [collapse]
      cases ha : pySpace a <;> simp [ha]
      · exact ih
      · cases hb : pySpace b <;> simp [hb]
        · exact ih
        · exact Nat.le_succ_of_le ih

theorem length_rstrip_le : ∀ (l : List Char), (rstrip l).length ≤ l.length := by
  intro l
  induction l with
  | nil => simp [rstrip]
  | cons a l ih =>
    simp only [rstrip]
    cases hr : rstrip l with
    | nil => cases h : stripSet a <;> simp [h]
    | cons r rs =>
      simp only [List.length_cons]
      have := ih
      rw [hr] at this
      simpa using this

theorem length_dropWhile_le (p : Char → Bool) :
    ∀ (l : List Char), (l.dropWhile p).length ≤ l.length := by
  intro l
  induction l with
  | nil => simp
  | cons a l ih =>
    rw [List.dropWhile_cons]
    by_cases h : p a = true <;> simp [h]
    exact Nat.le_succ_of_le ih

theorem length_stripEdges_le (l : List Char) :
    (stripEdges l).length ≤ l.length :=
  Nat.le_trans (length_rstrip_le _) (length_dropWhile_le _ _)

theorem length_beforeLastSpace_le : ∀ (p r : List Char),
    beforeLastSpace p = some r → r.length ≤ p.length := by
  intro p
  induction p with
  | nil => intro r hr; simp [beforeLastSpace] at hr
  | cons a p ih =>
    intro r hr
    simp only [beforeLastSpace] at hr
    cases hb : beforeLastSpace p with
    | some r2 =>
      rw [hb] at hr
      simp at hr
      rw [← hr]
      simpa using ih r2 hb
    | none =>
      rw [hb] at hr
      by_cases h : a = ' ' <;> simp [h] at hr
      rw [hr]
      simp

theorem length_cutLastSpace_le (p : List Char) :
    (cutLastSpace p).length ≤ p.length := by
  unfold cutLastSpace
  cases hb : beforeLastSpace p with
  | some r => simpa using length_beforeLastSpace_le p r hb
  | none => simp

/-- The invariant of collapsed whitespace: every whitespace character is a
plain space and no two adjacent characters are both whitespace. -/
def wsOk : List Char → Bool
  | [] => true
  | c :: cs =>
    (!pySpace c || c == ' ') &&
    (match cs.head? with
     | none => true
     | some d => !(pySpace c && pySpace d)) &&
    wsOk cs

theorem wsOk_tail {c : Char} {cs : List Char} (h : wsOk (c :: cs) = true) :
    wsOk cs = true := by
  simp only [wsOk, Bool.and_eq_true] at h
  exact h.2

theorem collapse_cons_nonspace {d : Char} (hd : pySpace d = false) :
    ∀ (l : List Char), collapse (d :: l) = d :: collapse l := by
  intro l
  cases l with
  | nil => simp [collapse, hd]
  | cons b l2 => simp [collapse, hd]

theorem wsOk_cons_of (c : Char) (cs : List Char)
    (h1 : pySpace c = true → c = ' ')
    (h2 : ∀ d, cs.head? = some d → (pySpace c && pySpace d) = false)
    (h3 : wsOk cs = true) : wsOk (c :: cs) = true := by
  simp only [wsOk, Bool.and_eq_true]
  refine ⟨⟨?_, ?_⟩, h3⟩
  · cases h : pySpace c
    · simp
    · simp [h1 h]
  · cases hd : cs.head? with
    | none => simp
    | some d => simp [h2 d hd]

theorem wsOk_collapse : ∀ (l : List Char), wsOk (collapse l) = true := by
  intro l
  induction l with
  | nil => simp [collapse, wsOk]
  | cons a l ih =>
    cases l with
    | nil =>
      cases h : pySpace a <;> simp [collapse, h, wsOk]
    | cons b l2 =>
      cases ha : pySpace a
      · rw [collapse_cons_nonspace ha]
        refine wsOk_cons_of a _ ?_ ?_ ih
        · intro h; rw [h] at ha; exact absurd ha (by simp)
        · intro d _; simp [ha]
      · cases hb : pySpace b
        · have hgoal : collapse (a :: b :: l2) = ' ' :: collapse (b :: l2) := by
            simp [collapse, ha, hb]
          rw [hgoal]
          refine wsOk_cons_of ' ' _ (fun _ => rfl) ?_ ih
          intro d hd
          rw [collapse_cons_nonspace hb] at hd
          simp at hd
          rw [← hd]
          simp [hb]
        · have hgoal : collapse (a :: b :: l2) = collapse (b :: l2) := by
            simp [collapse, ha, hb]
          rw [hgoal]
          exact ih

theorem wsOk_dropWhile (p : Char → Bool) :
    ∀ (l : List Char), wsOk l = true → wsOk (l.dropWhile p) = true := by
  intro l
  induction l with
  | nil => intro h; simpa using h
  | cons a l ih =>
    intro h
    rw [List.dropWhile_cons]
    by_cases hp : p a = true
    · simp only [hp, if_true]
      exact ih (wsOk_tail h)
    · simp only [hp, if_false]
      exact h

theorem rstrip_head (a : Char) (l : List Char) :
    rstrip (a :: l) = [] ∨ ∃ r, rstrip (a :: l) = a :: r := by
  simp only [rstrip]
  cases hr : rstrip l with
  | nil =>
    by_cases h : stripSet a = true
    · simp [h]
    · simp [h]
  | cons r rs => exact Or.inr ⟨r :: rs, rfl⟩

theorem wsOk_rstrip : ∀ (l : List Char), wsOk l = true → wsOk (rstrip l) = true := by
  intro l
  induction l with
  | nil => intro h; simpa using h
  | cons a l ih =>
    intro h
    simp only [rstrip]
    cases hr : rstrip l with
    | nil =>
      by_cases hs : stripSet a = true <;> simp [hs, wsOk]
      cases hp : pySpace a
      · simp
      · simp only [wsOk, Bool.and_eq_true] at h
        rcases h with ⟨⟨h1, _⟩, _⟩
        rw [hp] at h1
        simpa using h1
    | cons r rs =>
      refine wsOk_cons_of a _ ?_ ?_ (hr ▸ ih (wsOk_tail h))
      · intro hp
        simp only [wsOk, Bool.and_eq_true] at h
        rcases h with ⟨⟨h1, _⟩, _⟩
        rw [hp] at h1
        simpa using h1
      · intro d hd
        cases l with
        | nil => simp [rstrip] at hr
        | cons b l2 =>
          rcases rstrip_head b l2 with h0 | ⟨r2, h2⟩
          · rw [h0] at hr; exact absurd hr (by simp)
          · rw [h2] at hr
            have hb : d = b := by
              rw [← hr] at hd
              simpa using hd.symm
            simp only [wsOk, Bool.and_eq_true] at h
            rcases h with ⟨⟨_, hadj⟩, _⟩
            rw [hb]
            simp only [List.head?] at hadj
            cases hpa : pySpace a
            · simp
            · cases hpb : pySpace b
              · simp
              · rw [hpa, hpb] at hadj
                simp at hadj

theorem collapse_eq_self : ∀ (l : List Char), wsOk l = true → collapse l = l := by
  intro l
  induction l with
  | nil => intro _; rfl
  | cons a l ih =>
    intro h
    cases l with
    | nil =>
      simp only [collapse]
      cases hp : pySpace a
      · simp
      · simp only [wsOk, Bool.and_eq_true] at h
        rcases h with ⟨⟨h1, _⟩, _⟩
        rw [hp] at h1
        simp at h1
        simp [h1]
    | cons b l2 =>
      have htail : collapse (b :: l2) = b :: l2 := ih (wsOk_tail h)
      simp only [wsOk, Bool.and_eq_true] at h
      rcases h with ⟨⟨h1, hadj⟩, _⟩
      simp only [List.head?] at hadj
      cases hpa : pySpace a
      · rw [collapse_cons_nonspace hpa, htail]
      · rw [hpa] at h1
        have ha : a = ' ' := by simpa using h1
        have hpb : pySpace b = false := by
          rw [hpa] at hadj
          cases hpb : pySpace b
          · rfl
          · rw [hpb] at hadj; simp at hadj
        have hgoal : collapse (a :: b :: l2) = ' ' :: collapse (b :: l2) := by
          simp [collapse, hpa, hpb]
        rw [hgoal, htail, ha]

theorem replaceForbidden_eq_self : ∀ (l : List Char),
    (∀ c ∈ l, forbidden c = false) → replaceForbidden l = l := by
  intro l h
  simp only [replaceForbidden]
  conv_rhs => rw [← List.map_id l]
  refine List.map_congr_left ?_
  intro c hc
  simp [h c hc]

theorem dropWhile_head_not (p : Char → Bool) :
    ∀ (l : List Char), l.dropWhile p = [] ∨
      ∃ c cs, l.dropWhile p = c :: cs ∧ p c = false := by
  intro l
  induction l with
  | nil => simp
  | cons a l ih =>
    rw [List.dropWhile_cons]
    by_cases h : p a = true
    · simp only [h, if_true]
      exact ih
    · simp only [h, if_false]
      exact Or.inr ⟨a, l, rfl, by simpa using h⟩

theorem rstrip_cons_ne (a : Char) (l : List Char) {r : Char} {rs : List Char}
    (h : rstrip l = r :: rs) : rstrip (a :: l) = a :: r :: rs := by
  simp only [rstrip, h]

theorem rstrip_idem : ∀ (l : List Char), rstrip (rstrip l) = rstrip l := by
  intro l
  induction l with
  | nil => rfl
  | cons a l ih =>
    cases hr : rstrip l with
    | nil =>
      simp only [rstrip, hr]
      by_cases h : stripSet a = true
      · simp [h, rstrip]
      · simp [h, rstrip]
    | cons r rs =>
      rw [hr] at ih
      rw [rstrip_cons_ne a l hr, rstrip_cons_ne a (r :: rs) ih]

theorem stripEdges_idem (l : List Char) :
    stripEdges (stripEdges l) = stripEdges l := by
  unfold stripEdges
  have hdw : (rstrip (l.dropWhile stripSet)).dropWhile stripSet =
      rstrip (l.dropWhile stripSet) := by
    rcases dropWhile_head_not stripSet l with h0 | ⟨c, cs, hc, hpc⟩
    · rw [h0]; rfl
    · rw [hc]
      rcases rstrip_head c cs with h1 | ⟨r, h1⟩
      · rw [h1]; rfl
      · rw [h1, List.dropWhile_cons, hpc]
        simp
  rw [hdw, rstrip_idem]

theorem mem_truncateTo (n : Nat) (f : List Char) (c : Char) :
    c ∈ truncateTo n f → c ∈ f := by
  intro hc
  unfold truncateTo at hc
  by_cases h : n < f.length
  · rw [if_pos h] at hc
    exact List.take_subset n f (mem_cutLastSpace _ c hc)
  · rw [if_neg h] at hc
    exact hc

theorem length_truncateTo_le (n : Nat) (f : List Char) :
    (truncateTo n f).length ≤ n := by
  unfold truncateTo
  by_cases h : n < f.length
  · rw [if_pos h]
    refine Nat.le_trans (length_cutLastSpace_le _) ?_
    simp [List.length_take]
  · rw [if_neg h]
    omega

theorem truncateTo_eq_self {n : Nat} {f : List Char} (h : f.length ≤ n) :
    truncateTo n f = f := by
  unfold truncateTo
  rw [if_neg (by omega)]

/-- Every character of the stripped, collapsed, replaced string is
non-forbidden. -/
theorem forbidden_stage_false (s : List Char) :
    ∀ c ∈ stripEdges (collapse (replaceForbidden s)), forbidden c = false := by
  intro c hc
  rcases mem_collapse _ c (mem_stripEdges _ c hc) with h | h
  · rw [h]; exact forbidden_space
  · exact forbidden_replaceForbidden s c h

theorem forbidden_unknown_false : ∀ c ∈ "unknown".data, forbidden c = false := by
  decide

/-- The middle stage of the pipeline is a fixed point of itself: the
stripped, collapsed string is unchanged by replacing, collapsing and
stripping again. -/
theorem stage_fixpoint (s : List Char) :
    stripEdges (collapse (replaceForbidden
      (stripEdges (collapse (replaceForbidden s))))) =
    stripEdges (collapse (replaceForbidden s)) := by
  have hrepl : replaceForbidden (stripEdges (collapse (replaceForbidden s))) =
      stripEdges (collapse (replaceForbidden s)) :=
    replaceForbidden_eq_self _ (forbidden_stage_false s)
  have hws : wsOk (stripEdges (collapse (replaceForbidden s))) = true := by
    unfold stripEdges
    exact wsOk_rstrip _ (wsOk_dropWhile _ _ (wsOk_collapse _))
  have hcoll : collapse (stripEdges (collapse (replaceForbidden s))) =
      stripEdges (collapse (replaceForbidden s)) :=
    collapse_eq_self _ hws
  rw [hrepl, hcoll, stripEdges_idem]

theorem mk_data (l : List Char) : (String.mk l).data = l := rfl

theorem safe_core_unknown :
    safe_filename_core 180 "unknown".data = "unknown".data := by decide

theorem forbidden_safe_core (s : List Char) :
    ∀ c ∈ safe_filename_core 180 s, forbidden c = false := by
  intro c hc
  simp only [safe_filename_core] at hc
  by_cases h0 : s.isEmpty = true
  · rw [if_pos h0] at hc
    exact forbidden_unknown_false c hc
  · rw [if_neg h0] at hc
    by_cases h1 : (truncateTo 180 (stripEdges (collapse (replaceForbidden s)))).isEmpty = true
    · rw [if_pos h1] at hc
      exact forbidden_unknown_false c hc
    · rw [if_neg h1] at hc
      exact forbidden_stage_false s c (mem_truncateTo _ _ c hc)

theorem length_safe_core_le (s : List Char) :
    (safe_filename_core 180 s).length ≤ 180 := by
  simp only [safe_filename_core]
  by_cases h0 : s.isEmpty = true
  · rw [if_pos h0]; decide
  · rw [if_neg h0]
    by_cases h1 : (truncateTo 180 (stripEdges (collapse (replaceForbidden s)))).isEmpty = true
    · rw [if_pos h1]; decide
    · rw [if_neg h1]
      exact length_truncateTo_le _ _

theorem safe_core_ne_nil (s : List Char) : safe_filename_core 180 s ≠ [] := by
  simp only [safe_filename_core]
  by_cases h0 : s.isEmpty = true
  · rw [if_pos h0]; decide
  · rw [if_neg h0]
    by_cases h1 : (truncateTo 180 (stripEdges (collapse (replaceForbidden s)))).isEmpty = true
    · rw [if_pos h1]; decide
    · rw [if_neg h1]
      intro hnil
      rw [hnil] at h1
      exact h1 rfl

theorem safe_core_idem (s : List Char) (h : s.length ≤ 180) :
    safe_filename_core 180 (safe_filename_core 180 s) = safe_filename_core 180 s := by
  by_cases h0 : s.isEmpty = true
  · have hs : safe_filename_core 180 s = "unknown".data := by
      simp only [safe_filename_core]; rw [if_pos h0]
    rw [hs, safe_core_unknown]
  · set f := stripEdges (collapse (replaceForbidden s)) with hf
    have hflen : f.length ≤ 180 := by
      calc f.length ≤ (collapse (replaceForbidden s)).length := length_stripEdges_le _
        _ ≤ (replaceForbidden s).length := length_collapse_le _
        _ = s.length := by simp [replaceForbidden]
        _ ≤ 180 := h
    have htr : truncateTo 180 f = f := truncateTo_eq_self hflen
    by_cases h1 : f.isEmpty = true
    · have hs : safe_filename_core 180 s = "unknown".data := by
        simp only [safe_filename_core]
        rw [if_neg h0, ← hf, htr, if_pos h1]
      rw [hs, safe_core_unknown]
    · have hs : safe_filename_core 180 s = f := by
        simp only [safe_filename_core]
        rw [if_neg h0, ← hf, htr, if_neg h1]
      rw [hs]
      have hstage : stripEdges (collapse (replaceForbidden f)) = f := by
        rw [hf]; exact stage_fixpoint s
      simp only [safe_filename_core]
      rw [if_neg h1, hstage, htr, if_neg h1]

/-! ### Claim theorems -/

set_option maxRecDepth 10000 in
/-- C3, counterexample: `safe_filename` is not idempotent.  On the input
`"ab._ "` followed by 180 `'c'`s, sanitization truncates at the word
boundary and returns `"ab._"`, whose trailing `'.'` and `'_'` a second
application strips away, returning `"ab"`. -/
theorem safe_filename_not_idempotent :
    safe_filename (safe_filename ("ab._ " ++ String.mk (List.replicate 180 'c'))) ≠
    safe_filename ("ab._ " ++ String.mk (List.replicate 180 'c')) := by
  decide

/-- C3, amended: `safe_filename` is idempotent on every input of length at
most 180.  (Only the truncation step, which fires above length 180, can
leave a result ending in a strippable character; without it the pipeline's
output is a fixed point of every step.) -/
theorem safe_filename_idem_of_short (s : String) (h : s.length ≤ 180) :
    safe_filename (safe_filename s) = safe_filename s := by
  simp only [safe_filename, mk_data]
  exact congrArg String.mk (safe_core_idem s.data h)

/-- Witness for the amended C3 at a concrete input. -/
theorem safe_filename_idem_of_short_witness :
    ("LLRF station  report?.pdf" : String).length ≤ 180 ∧
    safe_filename (safe_filename "LLRF station  report?.pdf") =
      safe_filename "LLRF station  report?.pdf" :=
  ⟨by decide, safe_filename_idem_of_short "LLRF station  report?.pdf" (by decide)⟩

/-- C4: for every input string, `safe_filename` returns a string with no
character of the forbidden set `< > : " / \ | ? *` and no carriage return
or newline (`forbidden` is exactly that nine-character set plus CR and
LF), of length at most 180, and never the empty string. -/
theorem safe_filename_output_safe (s : String) :
    (∀ c ∈ (safe_filename s).data, forbidden c = false) ∧
    (safe_filename s).length ≤ 180 ∧ safe_filename s ≠ "" := by
  refine ⟨?_, ?_, ?_⟩
  · intro c hc
    exact forbidden_safe_core s.data c hc
  · exact length_safe_core_le s.data
  · intro hempty
    have : (safe_filename s).data = [] := by rw [hempty]
    exact safe_core_ne_nil s.data this

/-- C1: `parse_contribution` is a total Lean function on raw records (so it
returns a normalized `Contribution` without raising on any input), and
every absent field is defaulted: strings to `''`, `duration` to `0`,
person/attachment/keyword lists to `[]`, and — via `parse_person` and
`parse_attachment`, stated on the all-absent nested records — nested
string fields to `''`, `size` to `0` and `is_protected` to `False`. -/
theorem parse_contribution_total_defaults (c : RawContrib) :
    (c.id = none → (parse_contribution c).id = "") ∧
    (c.db_id = none → (parse_contribution c).db_id = "") ∧
    (c.friendly_id = none → (parse_contribution c).friendly_id = "") ∧
    (c.title = none → (parse_contribution c).title = "") ∧
    (c.type = none → (parse_contribution c).type = "") ∧
    (c.description = none → (parse_contribution c).description = "") ∧
    (c.startDate = none → (parse_contribution c).start_date = "" ∧
      (parse_contribution c).start_time = "") ∧
    (c.endDate = none → (parse_contribution c).end_date = "" ∧
      (parse_contribution c).end_time = "") ∧
    (c.duration = none → (parse_contribution c).duration = 0) ∧
    (c.location = none → (parse_contribution c).location = "") ∧
    (c.room = none → (parse_contribution c).room = "") ∧
    (c.url = none → (parse_contribution c).url = "") ∧
    (c.session = none → (parse_contribution c).session = "") ∧
    (c.track = none → (parse_contribution c).track = "") ∧
    (c.board_number = none → (parse_contribution c).board_number = "") ∧
    (c.code = none → (parse_contribution c).code = "") ∧
    (c.speakers = none → (parse_contribution c).speakers = []) ∧
    (c.primaryauthors = none → (parse_contribution c).primary_authors = []) ∧
    (c.coauthors = none → (parse_contribution c).coauthors = []) ∧
    (c.folders = none → (parse_contribution c).attachments = [] ∧
      (parse_contribution c).attachment_count = 0) ∧
    (c.keywords = none → (parse_contribution c).keywords = []) ∧
    parse_person ⟨none, none, none, none, none⟩ = ⟨"", "", "", "", ""⟩ ∧
    parse_attachment ⟨none, none, none, none, none, none, none, none⟩ =
      ⟨"", "", "", "", "", 0, "", false⟩ := by
  repeat' apply And.intro
  all_goals
    first
      | rfl
      | (intro h
         simp [parse_contribution, parse_person, parse_attachment, strOrEmpty, h])

/-- Witness for C1: the all-absent raw record normalizes to defaults. -/
theorem parse_contribution_total_defaults_witness :
    (parse_contribution emptyRawContrib).friendly_id = "" ∧
    (parse_contribution emptyRawContrib).duration = 0 ∧
    (parse_contribution emptyRawContrib).start_date = "" ∧
    (parse_contribution emptyRawContrib).speakers = [] ∧
    (parse_contribution emptyRawContrib).attachments = [] ∧
    (parse_contribution emptyRawContrib).attachment_count = 0 := by
  obtain ⟨h1, h2, h3, h4, h5, h6, h7, h8, h9, h10, h11, h12, h13, h14, h15,
    h16, h17, h18, h19, h20, h21, h22, h23⟩ :=
    parse_contribution_total_defaults emptyRawContrib
  exact ⟨h3 rfl, h9 rfl, (h7 rfl).1, h17 rfl, (h20 rfl).1, (h20 rfl).2⟩

/-- C2: the classification of `process_contributions` is a total, stable,
exhaustive partition: each category list is exactly the stable filter of
the input by its (function-valued, hence mutually exclusive and
exhaustive) classification, their concatenation is a permutation of the
input (so every contribution lands in exactly one list), and the empty
type classifies as other. -/
theorem classify_all_partition (l : List Contribution) :
    (classify_all l).1 =
      l.filter (fun c => decide (classify_type c.type = Category.oral)) ∧
    (classify_all l).2.1 =
      l.filter (fun c => decide (classify_type c.type = Category.poster)) ∧
    (classify_all l).2.2 =
      l.filter (fun c => decide (classify_type c.type = Category.other)) ∧
    ((classify_all l).1 ++ (classify_all l).2.1 ++ (classify_all l).2.2).Perm l ∧
    classify_type "" = Category.other := by
  induction l with
  | nil => exact ⟨rfl, rfl, rfl, List.Perm.refl _, rfl⟩
  | cons c rest ih =>
    obtain ⟨ho, hp, ht, hperm, _⟩ := ih
    refine ⟨?_, ?_, ?_, ?_, rfl⟩ <;>
      cases hcl : classify_type c.type <;>
        simp only [classify_all, hcl, List.filter_cons]
    · simp only [hcl, decide_eq_true_eq, if_pos rfl]
      rw [ho]
      simp [hcl]
    · rw [ho]
      simp [hcl]
    · rw [ho]
      simp [hcl]
    · rw [hp]
      simp [hcl]
    · simp only [hcl, decide_eq_true_eq, if_pos rfl]
      rw [hp]
      simp [hcl]
    · rw [hp]
      simp [hcl]
    · rw [ht]
      simp [hcl]
    · rw [ht]
      simp [hcl]
    · simp only [hcl, decide_eq_true_eq, if_pos rfl]
      rw [ht]
      simp [hcl]
    · simp only [List.cons_append]
      exact hperm.cons c
    · have h1 : (classify_all rest).1 ++ (c :: (classify_all rest).2.1) ++
          (classify_all rest).2.2 =
          (classify_all rest).1 ++
            c :: ((classify_all rest).2.1 ++ (classify_all rest).2.2) := by
        simp [List.append_assoc]
      rw [h1]
      refine List.Perm.trans List.perm_middle ?_
      refine List.Perm.cons c ?_
      rw [← List.append_assoc]
      exact hperm
    · have h1 : (classify_all rest).1 ++ (classify_all rest).2.1 ++
          (c :: (classify_all rest).2.2) =
          ((classify_all rest).1 ++ (classify_all rest).2.1) ++
            c :: (classify_all rest).2.2 := by
        simp [List.append_assoc]
      rw [h1]
      refine List.Perm.trans List.perm_middle ?_
      exact List.Perm.cons c hperm

/-- A raw contribution with an `id` but no `friendly_id`. -/
def rawNoFriendlyId : RawContrib :=
  { emptyRawContrib with id := some "42" }

/-- C5, failing-input evaluation: on a contribution whose raw
`friendly_id` is absent, every consumption site yields the empty string —
the normalizer stored `friendly_id = ''`, so the `dict.get` fallbacks to
`id` at lines 266, 352 and 497 never fire.  The three sites do agree with
one another, but none of them uses `id` (`"42"`). -/
theorem friendly_id_fallback_dead :
    attachment_folder_contrib_id (parse_contribution rawNoFriendlyId) = "" ∧
    progress_label_contrib_id (parse_contribution rawNoFriendlyId) = "" ∧
    summary_contrib_id (parse_contribution rawNoFriendlyId) = "" ∧
    (parse_contribution rawNoFriendlyId).id = "42" ∧
    attachment_folder_contrib_id (parse_contribution rawNoFriendlyId) ≠ "42" := by
  refine ⟨rfl, rfl, rfl, rfl, by decide⟩

/-- C6, failing-input evaluation: a contribution whose raw `startDate` is
absent is normalized with `start_date = ''`, and `save_by_date` groups it
under the key `''` — the `'Unknown'` default of
`contrib.get('start_date', 'Unknown')` (line 533) never fires because the
normalizer always stores the key. -/
theorem save_by_date_empty_date_bucket :
    save_by_date_groups [parse_contribution emptyRawContrib] =
      [("", [parse_contribution emptyRawContrib])] ∧
    ("" : String) ≠ "Unknown" := by
  refine ⟨rfl, by decide⟩

theorem sum_addToBucket (d : String) (c : Contribution) :
    ∀ (m : List (String × List Contribution)),
      ((addToBucket m d c).map (fun e => e.2.length)).sum =
      (m.map (fun e => e.2.length)).sum + 1 := by
  intro m
  induction m with
  | nil => simp [addToBucket]
  | cons e m ih =>
    obtain ⟨k, v⟩ := e
    simp only [addToBucket]
    by_cases h : k = d
    · rw [if_pos h]
      simp [List.length_append]
      omega
    · rw [if_neg h]
      simp only [List.map_cons, List.sum_cons, ih]
      omega

/-- The true half of the date-grouping property: the bucket sizes of
`save_by_date` sum to the number of contributions. -/
theorem save_by_date_groups_total (l : List Contribution) :
    ((save_by_date_groups l).map (fun e => e.2.length)).sum = l.length := by
  suffices h : ∀ (l2 : List Contribution) (m : List (String × List Contribution)),
      (((l2.foldl (fun m c => addToBucket m c.start_date c) m).map
        (fun e => e.2.length)).sum) =
      (m.map (fun e => e.2.length)).sum + l2.length by
    have h2 := h l []
    simpa [save_by_date_groups] using h2
  intro l2
  induction l2 with
  | nil => intro m; simp
  | cons c l2 ih =>
    intro m
    simp only [List.foldl_cons]
    rw [ih (addToBucket m c.start_date c), sum_addToBucket]
    simp only [List.length_cons]
    omega

/-- A raw attachment with a `title` but no `filename`. -/
def rawAttachmentNoFilename : RawAttachment :=
  ⟨none, some "Slides", none, none, none, none, none, none⟩

/-- A raw attachment with neither `filename` nor `title`. -/
def rawAttachmentBare : RawAttachment :=
  ⟨none, none, none, none, none, none, none, none⟩

/-- C9, failing-input evaluation: the parsed attachment always stores the
`'filename'` key (defaulted to `''`), so line 274's fallbacks to `title`
and to the literal `'attachment'` never fire: with `filename` absent and
`title = "Slides"` the target filename is `safe_filename('') = "unknown"`,
not the sanitized title; with both absent it is `"unknown"`, not
`"attachment"`. -/
theorem attachment_filename_fallback_dead :
    attachment_target_filename (parse_attachment rawAttachmentNoFilename) =
      "unknown" ∧
    safe_filename "Slides" = "Slides" ∧
    attachment_target_filename (parse_attachment rawAttachmentNoFilename) ≠
      safe_filename "Slides" ∧
    attachment_target_filename (parse_attachment rawAttachmentBare) = "unknown" ∧
    ("unknown" : String) ≠ "attachment" := by
  refine ⟨by decide, by decide, by decide, by decide, by decide⟩

/-- C7: when the resolved target file already exists in the store,
`download_attachment` leaves the store unchanged (so the file's content is
untouched), issues no download request, and returns `True`. -/
theorem download_attachment_skips_existing (fs : FileStore)
    (remote : String → Option String) (outputDir categoryFolder : String)
    (c : Contribution) (a : Attachment)
    (h : (fs.lookup (resolved_target_path outputDir categoryFolder c a)).isSome
      = true) :
    (download_attachment fs remote outputDir categoryFolder c a).fs = fs ∧
    (download_attachment fs remote outputDir categoryFolder c a).requested = [] ∧
    (download_attachment fs remote outputDir categoryFolder c a).ok = true := by
  simp only [download_attachment]
  rw [if_pos h]
  exact ⟨rfl, rfl, rfl⟩

/-- A concrete parsed contribution for the C7 witness. -/
def skipWitnessContribution : Contribution :=
  parse_contribution
    { emptyRawContrib with friendly_id := some "X1", title := some "T" }

/-- A concrete parsed attachment for the C7 witness (its empty filename
sanitizes to `"unknown"`). -/
def skipWitnessAttachment : Attachment :=
  ⟨"", "", "", "http:u", "", 0, "", false⟩

/-- A store already holding the resolved target file. -/
def skipWitnessStore : FileStore :=
  [(["out", "Posters", "X1 - T", "unknown"], "old-bytes")]

/-- Witness for C7 at concrete inputs. -/
theorem download_attachment_skips_existing_witness :
    ((skipWitnessStore.lookup (resolved_target_path "out" "Posters"
        skipWitnessContribution skipWitnessAttachment)).isSome = true) ∧
    ((download_attachment skipWitnessStore (fun _ => none) "out" "Posters"
        skipWitnessContribution skipWitnessAttachment).fs = skipWitnessStore ∧
     (download_attachment skipWitnessStore (fun _ => none) "out" "Posters"
        skipWitnessContribution skipWitnessAttachment).requested = [] ∧
     (download_attachment skipWitnessStore (fun _ => none) "out" "Posters"
        skipWitnessContribution skipWitnessAttachment).ok = true) :=
  ⟨by decide,
   download_attachment_skips_existing skipWitnessStore (fun _ => none)
     "out" "Posters" skipWitnessContribution skipWitnessAttachment (by decide)⟩

/-- C8, counterexample: on the empty envelope (`count == 0`),
`fetch_event_data` returns `False` and logs, but the error counter is NOT
incremented — only the exception arm increments it, the
no-event-data arm (lines 148–150) does not, contradicting the claim that
every such failure increments the counter before returning `False`. -/
theorem fetch_malformed_no_error_increment :
    (fetch_event_data (FetchOutcome.ok ⟨some 0, some []⟩) 0).success = false ∧
    (fetch_event_data (FetchOutcome.ok ⟨some 0, some []⟩) 0).logged ≠ [] ∧
    (fetch_event_data (FetchOutcome.ok ⟨some 0, some []⟩) 0).errors = 0 ∧
    (fetch_event_data (FetchOutcome.ok ⟨some 0, some []⟩) 0).errors ≠ 0 + 1 := by
  refine ⟨by decide, by decide, by decide, by decide⟩

/-- C8, amended: `fetch_event_data` consumes a single fetch outcome (the
source has no retry construct) and returns `False` with a logged message
on every failure; the error counter is incremented on HTTP/transport
failure but left unchanged on an empty/malformed envelope. -/
theorem fetch_event_data_failure_behavior (errors0 : Nat) (env : Envelope)
    (h : ¬ (0 < env.count.getD 0 ∧ env.results.isSome = true)) :
    (fetch_event_data FetchOutcome.transportFail errors0).success = false ∧
    (fetch_event_data FetchOutcome.transportFail errors0).errors = errors0 + 1 ∧
    (fetch_event_data FetchOutcome.transportFail errors0).logged ≠ [] ∧
    (fetch_event_data (FetchOutcome.ok env) errors0).success = false ∧
    (fetch_event_data (FetchOutcome.ok env) errors0).errors = errors0 ∧
    (fetch_event_data (FetchOutcome.ok env) errors0).logged ≠ [] := by
  refine ⟨rfl, rfl, by simp [fetch_event_data], ?_, ?_, ?_⟩
  · simp only [fetch_event_data]
    rw [if_neg h]
  · simp only [fetch_event_data]
    rw [if_neg h]
  · simp only [fetch_event_data]
    rw [if_neg h]
    simp

/-- Witness for the amended C8 at a concrete malformed envelope. -/
theorem fetch_event_data_failure_behavior_witness :
    (¬ (0 < (some (0 : Int)).getD 0 ∧ (some ([] : List RawEvent)).isSome = true)) ∧
    ((fetch_event_data (FetchOutcome.ok ⟨some 0, some []⟩) 7).success = false ∧
     (fetch_event_data (FetchOutcome.ok ⟨some 0, some []⟩) 7).errors = 7) :=
  ⟨by decide,
   ⟨(fetch_event_data_failure_behavior 7 ⟨some 0, some []⟩ (by decide)).2.2.2.1,
    (fetch_event_data_failure_behavior 7 ⟨some 0, some []⟩ (by decide)).2.2.2.2.1⟩⟩

/-- C10: the exported all-contributions document is internally
consistent: `statistics.total_contributions` is the sum of the three
category counts, and each count is the length of the corresponding
category sub-list written under `contributions` in the same document. -/
theorem save_all_contributions_data_consistent
    (oral posters others : List Contribution) :
    (save_all_contributions_data oral posters others).statistics.total_contributions =
      (save_all_contributions_data oral posters others).statistics.oral_presentations +
      (save_all_contributions_data oral posters others).statistics.posters +
      (save_all_contributions_data oral posters others).statistics.others ∧
    (save_all_contributions_data oral posters others).statistics.oral_presentations =
      (save_all_contributions_data oral posters others).contributions.oral_presentations.length ∧
    (save_all_contributions_data oral posters others).statistics.posters =
      (save_all_contributions_data oral posters others).contributions.posters.length ∧
    (save_all_contributions_data oral posters others).statistics.others =
      (save_all_contributions_data oral posters others).contributions.others.length := by
  refine ⟨?_, rfl, rfl, rfl⟩
  simp only [save_all_contributions_data, List.length_append]

end LLRF2025
